import Mathlib

/-!
Verification of the layout engine of rubyfmt, as implemented in
src/librubyfmt/src/render_queue_writer.rs.  The writer itself
(render_as, format_breakable_entry, write_final_tokens, write) is
translated from that file.  The helper modules it calls
(intermediary.rs, line_tokens.rs, render_targets.rs, parser_state.rs)
are not part of the excerpted sources, so their operations are
modelled from the specification (sections 3 and 4 of the design
document) and are marked as such in their doc comments.

Representation note: the Rust Intermediary is a Vec with push at the
end and suffix checks through last::<N>().  Here the buffer is a Lean
list kept in reverse order (most recent token first), so a check of
the last N tokens is a pattern match on the first N list cells.
-/

namespace Rubyfmt

/-- Modelled from the spec (line_tokens.rs is not in the excerpt): the
alphabet of concrete line tokens from section 3.1, with the fields the
renderer inspects. -/
inductive ConcreteLineToken where
  | Indent (depth : Nat)
  | HardNewLine
  | SoftNewLine
  | CollapsingNewLine
  | DirectPart (part : String)
  | Delim (contents : String)
  | Comma
  | Space
  | Dot
  | LonelyOperator
  | DefKeyword
  | ClassKeyword
  | ModuleKeyword
  | End
  | AfterCallChain
  | HeredocClose (indent : Nat) (symbol : String)
deriving DecidableEq

/-- Modelled from the spec: true for class/module/method headers and,
so that the visibility test of rule R3 is not vacuous, for the
visibility-modifier words themselves (section 3.1). -/
def ConcreteLineToken.is_in_need_of_a_trailing_blankline : ConcreteLineToken → Bool
  | .DefKeyword => true
  | .ClassKeyword => true
  | .ModuleKeyword => true
  | .DirectPart p => p = "private" || p = "public" || p = "protected"
  | _ => false

/-- Modelled from the spec: true for tokens such as private, public,
protected (section 3.1). -/
def ConcreteLineToken.is_method_visibility_modifier : ConcreteLineToken → Bool
  | .DirectPart p => p = "private" || p = "public" || p = "protected"
  | _ => false

/-- Modelled from the spec: the deterministic text rendering of each
token (section 3.1, into_text).  One indent unit is rendered as two
spaces; soft and collapsing newlines only occur inside breakable
alternatives and render as line breaks. -/
def ConcreteLineToken.into_ruby : ConcreteLineToken → String
  | .Indent depth => String.mk (List.replicate (2 * depth) ' ')
  | .HardNewLine => "\n"
  | .SoftNewLine => "\n"
  | .CollapsingNewLine => "\n"
  | .DirectPart p => p
  | .Delim c => c
  | .Comma => ","
  | .Space => " "
  | .Dot => "."
  | .LonelyOperator => "&."
  | .DefKeyword => "def"
  | .ClassKeyword => "class"
  | .ModuleKeyword => "module"
  | .End => "end"
  | .AfterCallChain => ""
  | .HeredocClose _ symbol => symbol

/-- Modelled from the spec (parser_state.rs is not in the excerpt):
the formatting contexts of section 3.2.  StringEmbexpr is the name the
source uses for the context the spec calls StringInterpolation. -/
inductive FormattingContext where
  | TopLevel
  | ClassOrModule
  | Def
  | ArgsList
  | CurlyBlock
  | DoBlock
  | StringEmbexpr
deriving DecidableEq

/-- Modelled from the spec (intermediary.rs is not in the excerpt):
the reason tag attached to inserted blank lines (sections 4.3, 6.3). -/
inductive BlanklineReason where
  | ComesAfterEnd
deriving DecidableEq

/-- The render-queue item type of the source: either a concrete line
token or a breakable entry.  The BreakableEntry struct itself lives in
render_targets.rs, which is not in the excerpt, so its fields are
modelled from section 3.2 of the spec: the two alternatives, the
measured single-line width, the forced-multiline flag, and the
formatting context. -/
inductive ConcreteLineTokenAndTargets where
  | ConcreteLineToken (tok : ConcreteLineToken)
  | BreakableEntry
      (single_line_tokens : List ConcreteLineTokenAndTargets)
      (multi_line_tokens : List ConcreteLineTokenAndTargets)
      (single_line_string_length : Nat)
      (forced_multiline : Bool)
      (formatting_context : FormattingContext)

/-- The Intermediary buffer (section 3.4), in reverse order: the head
of the list is the most recently pushed token. -/
abbrev Intermediary := List ConcreteLineToken

/-- Append a token to the buffer (push in the source). -/
def push (acc : Intermediary) (tok : ConcreteLineToken) : Intermediary :=
  tok :: acc

/-- Modelled from the spec, rule R1 action: drop the trailing
HardNewLine (the head of the reversed buffer). -/
def pop_heredoc_mistake (acc : Intermediary) : Intermediary :=
  acc.tail

/-- Modelled from the spec, section 4.3: splice a HardNewLine into the
buffer at the position immediately before the indent that precedes the
last token.  The reason tag is observability only and does not change
the buffer contents. -/
def insert_trailing_blankline (acc : Intermediary) (_reason : BlanklineReason) :
    Intermediary :=
  match acc with
  | x :: ind :: rest => x :: ind :: ConcreteLineToken.HardNewLine :: rest
  | a => a

/-- Modelled from the spec, rule R4 action: collapse the two
consecutive Indent tokens (at the second and third positions of the
reversed buffer) to one; the earlier of the two is kept. -/
def fix_heredoc_indent_mistake (acc : Intermediary) : Intermediary :=
  match acc with
  | x :: _ :: i1 :: rest => x :: i1 :: rest
  | a => a

/-- Modelled from the spec, rule R5 action: remove the duplicate
trailing HardNewLine. -/
def fix_heredoc_arg_newline_mistake (acc : Intermediary) : Intermediary :=
  acc.tail

/-- Modelled from the spec, section 4.2: the fixed garbage list that
single-line expansion can leave before the close delimiter — a stray
Comma, Space, or empty DirectPart. -/
def is_breakable_garbage : ConcreteLineToken → Bool
  | .Comma => true
  | .Space => true
  | .DirectPart p => p = ""
  | _ => false

/-- Strip garbage tokens from the front of the reversed tail, stopping
at the first non-garbage token. -/
def drop_garbage : List ConcreteLineToken → List ConcreteLineToken
  | y :: rest => if is_breakable_garbage y then drop_garbage rest else y :: rest
  | [] => []

/-- Modelled from the spec, section 4.2: after single-line expansion,
remove items at position len-2 (just before the close delimiter, which
is the head of the reversed buffer) until the token there is not on
the garbage list. -/
def clear_breakable_garbage (acc : Intermediary) : Intermediary :=
  match acc with
  | x :: rest => x :: drop_garbage rest
  | [] => []

/-- Rule R1 of render_as (source lines 39-44): on suffix
[HeredocClose, HardNewLine, Indent, HardNewLine], pop the heredoc
mistake. -/
def ruleR1 (acc : Intermediary) : Intermediary :=
  match acc with
  | .HardNewLine :: .Indent d :: .HardNewLine :: .HeredocClose hd sym :: rest =>
      pop_heredoc_mistake
        (.HardNewLine :: .Indent d :: .HardNewLine :: .HeredocClose hd sym :: rest)
  | a => a

/-- Rule R2 of render_as (source lines 46-53): on suffix
[End, HardNewLine, Indent, x] where x needs a trailing blankline,
insert a blank line tagged ComesAfterEnd. -/
def ruleR2 (acc : Intermediary) : Intermediary :=
  match acc with
  | x :: .Indent d :: .HardNewLine :: .End :: rest =>
      if x.is_in_need_of_a_trailing_blankline then
        insert_trailing_blankline (x :: .Indent d :: .HardNewLine :: .End :: rest)
          BlanklineReason.ComesAfterEnd
      else
        x :: .Indent d :: .HardNewLine :: .End :: rest
  | a => a

/-- Rule R3 of render_as (source lines 55-69): on suffix
[End, AfterCallChain, HardNewLine, Indent, x] where x is not
DefKeyword, needs a trailing blankline, and is not a visibility
modifier, insert a blank line tagged ComesAfterEnd. -/
def ruleR3 (acc : Intermediary) : Intermediary :=
  match acc with
  | x :: .Indent d :: .HardNewLine :: .AfterCallChain :: .End :: rest =>
      if x = ConcreteLineToken.DefKeyword then
        x :: .Indent d :: .HardNewLine :: .AfterCallChain :: .End :: rest
      else if x.is_in_need_of_a_trailing_blankline && !x.is_method_visibility_modifier then
        insert_trailing_blankline
          (x :: .Indent d :: .HardNewLine :: .AfterCallChain :: .End :: rest)
          BlanklineReason.ComesAfterEnd
      else
        x :: .Indent d :: .HardNewLine :: .AfterCallChain :: .End :: rest
  | a => a

/-- Rule R4 of render_as (source lines 71-76): on suffix
[HeredocClose, HardNewLine, Indent, Indent, Delim], collapse the two
indents. -/
def ruleR4 (acc : Intermediary) : Intermediary :=
  match acc with
  | .Delim s :: .Indent d2 :: .Indent d1 :: .HardNewLine :: .HeredocClose hd sym :: rest =>
      fix_heredoc_indent_mistake
        (.Delim s :: .Indent d2 :: .Indent d1 :: .HardNewLine
          :: .HeredocClose hd sym :: rest)
  | a => a

/-- Rule R5 of render_as (source lines 78-83): on suffix
[HeredocClose, HardNewLine, Indent, Delim, Comma, HardNewLine,
HardNewLine], remove the duplicate trailing newline. -/
def ruleR5 (acc : Intermediary) : Intermediary :=
  match acc with
  | .HardNewLine :: .HardNewLine :: .Comma :: .Delim s :: .Indent d :: .HardNewLine
      :: .HeredocClose hd sym :: rest =>
      fix_heredoc_arg_newline_mistake
        (.HardNewLine :: .HardNewLine :: .Comma :: .Delim s :: .Indent d
          :: .HardNewLine :: .HeredocClose hd sym :: rest)
  | a => a

/-- The five sequential suffix checks run in the body of the render_as
loop after each item (source lines 39-83), in source order. -/
def apply_fixups (acc : Intermediary) : Intermediary :=
  ruleR5 (ruleR4 (ruleR3 (ruleR2 (ruleR1 acc))))

/-- The column budget (source line 9). -/
def MAX_LINE_LENGTH : Nat := 120

/-- The render loop (source lines 30-85 with format_breakable_entry of
lines 87-102 inlined at its single call site): push concrete tokens,
expand breakable entries — multi-line when the measured width exceeds
the budget or the entry is forced multiline, unless the formatting
context is StringEmbexpr; otherwise single-line followed by
clear_breakable_garbage — and run the fixup checks after every item. -/
def render_as (acc : Intermediary) : List ConcreteLineTokenAndTargets → Intermediary
  | [] => acc
  | ConcreteLineTokenAndTargets.ConcreteLineToken x :: rest =>
      render_as (apply_fixups (push acc x)) rest
  | ConcreteLineTokenAndTargets.BreakableEntry sl ml len fm ctx :: rest =>
      let expanded :=
        if (len > MAX_LINE_LENGTH ∨ fm = true) ∧ ctx ≠ FormattingContext.StringEmbexpr then
          render_as acc ml
        else
          clear_breakable_garbage (render_as acc sl)
      render_as (apply_fixups expanded) rest
termination_by l => sizeOf l
decreasing_by
  all_goals simp_wf
  all_goals omega

/-- format_breakable_entry (source lines 87-102), stated as a
standalone function; render_as above contains this body at its
breakable branch. -/
def format_breakable_entry (acc : Intermediary)
    (sl ml : List ConcreteLineTokenAndTargets) (len : Nat) (fm : Bool)
    (ctx : FormattingContext) : Intermediary :=
  if (len > MAX_LINE_LENGTH ∨ fm = true) ∧ ctx ≠ FormattingContext.StringEmbexpr then
    render_as acc ml
  else
    clear_breakable_garbage (render_as acc sl)

/-- Recover the buffer in emission order (into_tokens in the source;
the reversed representation is flipped back). -/
def into_tokens (acc : Intermediary) : List ConcreteLineToken :=
  acc.reverse

/-- The trailing-newline pop of write_final_tokens (source lines
113-125): only when the buffer holds more than two tokens and the last
two are both HardNewLine is the final token popped. -/
def final_pop (tokens : List ConcreteLineToken) : List ConcreteLineToken :=
  if tokens.length > 2 then
    if tokens[tokens.length - 2]? = some ConcreteLineToken.HardNewLine ∧
        tokens[tokens.length - 1]? = some ConcreteLineToken.HardNewLine then
      tokens.dropLast
    else tokens
  else tokens

/-- write_final_tokens (source lines 104-132), pure form: the text
that reaches the sink when every sink write succeeds. -/
def write_final_tokens (tokens : List ConcreteLineToken) : String :=
  String.join ((final_pop tokens).map ConcreteLineToken.into_ruby)

/-- The public write entry point (source lines 20-28), pure form:
render the queue into a fresh Intermediary and serialize it. -/
def write (queue : List ConcreteLineTokenAndTargets) : String :=
  write_final_tokens (into_tokens (render_as [] queue))

/-- Serialize a token list through a stateful fallible sink: each
token's text is passed to the sink in order and the first sink error
is propagated unchanged (the write! propagation of source lines
127-130). -/
def write_tokens_io {σ ε : Type} (wr : σ → String → Except ε σ) (s : σ) :
    List ConcreteLineToken → Except ε σ
  | [] => Except.ok s
  | t :: rest =>
      match wr s t.into_ruby with
      | Except.ok s2 => write_tokens_io wr s2 rest
      | Except.error e => Except.error e

/-- write_final_tokens against a fallible sink (source lines 104-132). -/
def write_final_tokens_io {σ ε : Type} (wr : σ → String → Except ε σ) (s : σ)
    (tokens : List ConcreteLineToken) : Except ε σ :=
  write_tokens_io wr s (final_pop tokens)

/-- The public write entry point against a fallible sink (source lines
20-28): no sink call is made before final serialization. -/
def write_io {σ ε : Type} (wr : σ → String → Except ε σ) (s : σ)
    (queue : List ConcreteLineTokenAndTargets) : Except ε σ :=
  write_final_tokens_io wr s (into_tokens (render_as [] queue))

/-- A sink that collects every written string and never fails, used to
observe the byte sequence written by write_io. -/
def strCollect : String → String → Except Unit String :=
  fun s t => Except.ok (s ++ t)


/-!
Helper lemmas about the five fixup rules: the exact suffix shape on
which each rule fires, its effect there, and that each rule leaves the
other relevant shapes untouched.
-/

lemma ruleR1_fires (d hd : Nat) (sym : String) (rest : Intermediary) :
    ruleR1 (.HardNewLine :: .Indent d :: .HardNewLine :: .HeredocClose hd sym :: rest)
      = .Indent d :: .HardNewLine :: .HeredocClose hd sym :: rest := rfl

lemma ruleR2_fires (x : ConcreteLineToken) (d : Nat) (rest : Intermediary)
    (h : x.is_in_need_of_a_trailing_blankline = true) :
    ruleR2 (x :: .Indent d :: .HardNewLine :: .End :: rest)
      = x :: .Indent d :: .HardNewLine :: .HardNewLine :: .End :: rest := by
  unfold ruleR2
  simp [h, insert_trailing_blankline]

lemma ruleR3_fires (x : ConcreteLineToken) (d : Nat) (rest : Intermediary)
    (hx : x ≠ ConcreteLineToken.DefKeyword)
    (h1 : x.is_in_need_of_a_trailing_blankline = true)
    (h2 : x.is_method_visibility_modifier = false) :
    ruleR3 (x :: .Indent d :: .HardNewLine :: .AfterCallChain :: .End :: rest)
      = x :: .Indent d :: .HardNewLine :: .HardNewLine :: .AfterCallChain :: .End :: rest := by
  unfold ruleR3
  simp [hx, h1, h2, insert_trailing_blankline]

lemma ruleR3_skips (x : ConcreteLineToken) (d : Nat) (rest : Intermediary)
    (hfail : x = ConcreteLineToken.DefKeyword ∨
      x.is_in_need_of_a_trailing_blankline = false ∨
      x.is_method_visibility_modifier = true) :
    ruleR3 (x :: .Indent d :: .HardNewLine :: .AfterCallChain :: .End :: rest)
      = x :: .Indent d :: .HardNewLine :: .AfterCallChain :: .End :: rest := by
  unfold ruleR3
  rcases hfail with h | h | h <;> simp [h]

lemma ruleR4_fires (s : String) (d2 d1 hd : Nat) (sym : String) (rest : Intermediary) :
    ruleR4 (.Delim s :: .Indent d2 :: .Indent d1 :: .HardNewLine
        :: .HeredocClose hd sym :: rest)
      = .Delim s :: .Indent d1 :: .HardNewLine :: .HeredocClose hd sym :: rest := rfl

lemma ruleR5_fires (s : String) (d hd : Nat) (sym : String) (rest : Intermediary) :
    ruleR5 (.HardNewLine :: .HardNewLine :: .Comma :: .Delim s :: .Indent d
        :: .HardNewLine :: .HeredocClose hd sym :: rest)
      = .HardNewLine :: .Comma :: .Delim s :: .Indent d :: .HardNewLine
        :: .HeredocClose hd sym :: rest := rfl

lemma ruleR1_shape (acc : Intermediary) (h : ruleR1 acc ≠ acc) :
    ∃ d hd sym rest, acc
      = .HardNewLine :: .Indent d :: .HardNewLine :: .HeredocClose hd sym :: rest := by
  unfold ruleR1 at h
  split at h
  · exact ⟨_, _, _, _, rfl⟩
  · exact absurd rfl h

lemma ruleR2_shape (acc : Intermediary) (h : ruleR2 acc ≠ acc) :
    ∃ x d rest, acc = x :: .Indent d :: .HardNewLine :: .End :: rest
      ∧ x.is_in_need_of_a_trailing_blankline = true := by
  unfold ruleR2 at h
  split at h
  · rename_i x d rest
    by_cases hp : x.is_in_need_of_a_trailing_blankline = true
    · exact ⟨x, d, rest, rfl, hp⟩
    · simp [hp] at h
  · exact absurd rfl h

lemma ruleR3_shape (acc : Intermediary) (h : ruleR3 acc ≠ acc) :
    ∃ x d rest, acc = x :: .Indent d :: .HardNewLine :: .AfterCallChain :: .End :: rest
      ∧ x ≠ ConcreteLineToken.DefKeyword
      ∧ x.is_in_need_of_a_trailing_blankline = true
      ∧ x.is_method_visibility_modifier = false := by
  unfold ruleR3 at h
  split at h
  · rename_i x d rest
    by_cases hx : x = ConcreteLineToken.DefKeyword
    · simp [hx] at h
    · by_cases h1 : x.is_in_need_of_a_trailing_blankline = true
      · by_cases h2 : x.is_method_visibility_modifier = true
        · simp [hx, h1, h2] at h
        · exact ⟨x, d, rest, rfl, hx, h1, by simpa using h2⟩
      · simp [hx, h1] at h
  · exact absurd rfl h

lemma ruleR4_shape (acc : Intermediary) (h : ruleR4 acc ≠ acc) :
    ∃ s d2 d1 hd sym rest, acc
      = .Delim s :: .Indent d2 :: .Indent d1 :: .HardNewLine
        :: .HeredocClose hd sym :: rest := by
  unfold ruleR4 at h
  split at h
  · exact ⟨_, _, _, _, _, _, rfl⟩
  · exact absurd rfl h

lemma ruleR5_shape (acc : Intermediary) (h : ruleR5 acc ≠ acc) :
    ∃ s d hd sym rest, acc
      = .HardNewLine :: .HardNewLine :: .Comma :: .Delim s :: .Indent d
        :: .HardNewLine :: .HeredocClose hd sym :: rest := by
  unfold ruleR5 at h
  split at h
  · exact ⟨_, _, _, _, _, rfl⟩
  · exact absurd rfl h

lemma r1_skips_s2 (x : ConcreteLineToken) (d : Nat) (rest : Intermediary) :
    ruleR1 (x :: .Indent d :: .HardNewLine :: .End :: rest)
      = x :: .Indent d :: .HardNewLine :: .End :: rest := by
  unfold ruleR1; split <;> simp_all

lemma r1_skips_out2 (x : ConcreteLineToken) (d : Nat) (rest : Intermediary) :
    ruleR1 (x :: .Indent d :: .HardNewLine :: .HardNewLine :: .End :: rest)
      = x :: .Indent d :: .HardNewLine :: .HardNewLine :: .End :: rest := by
  unfold ruleR1; split <;> simp_all

lemma r2_skips_out2 (x : ConcreteLineToken) (d : Nat) (rest : Intermediary) :
    ruleR2 (x :: .Indent d :: .HardNewLine :: .HardNewLine :: .End :: rest)
      = x :: .Indent d :: .HardNewLine :: .HardNewLine :: .End :: rest := rfl

lemma r3_skips_out2 (x : ConcreteLineToken) (d : Nat) (rest : Intermediary) :
    ruleR3 (x :: .Indent d :: .HardNewLine :: .HardNewLine :: .End :: rest)
      = x :: .Indent d :: .HardNewLine :: .HardNewLine :: .End :: rest := rfl

lemma r4_skips_out2 (x : ConcreteLineToken) (d : Nat) (rest : Intermediary) :
    ruleR4 (x :: .Indent d :: .HardNewLine :: .HardNewLine :: .End :: rest)
      = x :: .Indent d :: .HardNewLine :: .HardNewLine :: .End :: rest := by
  unfold ruleR4; split <;> simp_all

lemma r5_skips_out2 (x : ConcreteLineToken) (d : Nat) (rest : Intermediary) :
    ruleR5 (x :: .Indent d :: .HardNewLine :: .HardNewLine :: .End :: rest)
      = x :: .Indent d :: .HardNewLine :: .HardNewLine :: .End :: rest := by
  unfold ruleR5; split <;> simp_all

lemma r1_skips_s3 (x : ConcreteLineToken) (d : Nat) (rest : Intermediary) :
    ruleR1 (x :: .Indent d :: .HardNewLine :: .AfterCallChain :: .End :: rest)
      = x :: .Indent d :: .HardNewLine :: .AfterCallChain :: .End :: rest := by
  unfold ruleR1; split <;> simp_all

lemma r2_skips_s3 (x : ConcreteLineToken) (d : Nat) (rest : Intermediary) :
    ruleR2 (x :: .Indent d :: .HardNewLine :: .AfterCallChain :: .End :: rest)
      = x :: .Indent d :: .HardNewLine :: .AfterCallChain :: .End :: rest := rfl

lemma r4_skips_s3 (x : ConcreteLineToken) (d : Nat) (rest : Intermediary) :
    ruleR4 (x :: .Indent d :: .HardNewLine :: .AfterCallChain :: .End :: rest)
      = x :: .Indent d :: .HardNewLine :: .AfterCallChain :: .End :: rest := by
  unfold ruleR4; split <;> simp_all

lemma r5_skips_s3 (x : ConcreteLineToken) (d : Nat) (rest : Intermediary) :
    ruleR5 (x :: .Indent d :: .HardNewLine :: .AfterCallChain :: .End :: rest)
      = x :: .Indent d :: .HardNewLine :: .AfterCallChain :: .End :: rest := by
  unfold ruleR5; split <;> simp_all

lemma r1_skips_out3 (x : ConcreteLineToken) (d : Nat) (rest : Intermediary) :
    ruleR1 (x :: .Indent d :: .HardNewLine :: .HardNewLine :: .AfterCallChain :: .End :: rest)
      = x :: .Indent d :: .HardNewLine :: .HardNewLine :: .AfterCallChain :: .End :: rest := by
  unfold ruleR1; split <;> simp_all

lemma r2_skips_out3 (x : ConcreteLineToken) (d : Nat) (rest : Intermediary) :
    ruleR2 (x :: .Indent d :: .HardNewLine :: .HardNewLine :: .AfterCallChain :: .End :: rest)
      = x :: .Indent d :: .HardNewLine :: .HardNewLine :: .AfterCallChain :: .End :: rest := rfl

lemma r3_skips_out3 (x : ConcreteLineToken) (d : Nat) (rest : Intermediary) :
    ruleR3 (x :: .Indent d :: .HardNewLine :: .HardNewLine :: .AfterCallChain :: .End :: rest)
      = x :: .Indent d :: .HardNewLine :: .HardNewLine :: .AfterCallChain :: .End :: rest := rfl

lemma r4_skips_out3 (x : ConcreteLineToken) (d : Nat) (rest : Intermediary) :
    ruleR4 (x :: .Indent d :: .HardNewLine :: .HardNewLine :: .AfterCallChain :: .End :: rest)
      = x :: .Indent d :: .HardNewLine :: .HardNewLine :: .AfterCallChain :: .End :: rest := by
  unfold ruleR4; split <;> simp_all

lemma r5_skips_out3 (x : ConcreteLineToken) (d : Nat) (rest : Intermediary) :
    ruleR5 (x :: .Indent d :: .HardNewLine :: .HardNewLine :: .AfterCallChain :: .End :: rest)
      = x :: .Indent d :: .HardNewLine :: .HardNewLine :: .AfterCallChain :: .End :: rest := by
  unfold ruleR5; split <;> simp_all

lemma fixups_s1 (d hd : Nat) (sym : String) (rest : Intermediary) :
    apply_fixups (.HardNewLine :: .Indent d :: .HardNewLine :: .HeredocClose hd sym :: rest)
      = .Indent d :: .HardNewLine :: .HeredocClose hd sym :: rest := rfl

lemma fixups_out1 (d hd : Nat) (sym : String) (rest : Intermediary) :
    apply_fixups (.Indent d :: .HardNewLine :: .HeredocClose hd sym :: rest)
      = .Indent d :: .HardNewLine :: .HeredocClose hd sym :: rest := rfl

lemma fixups_s2 (x : ConcreteLineToken) (d : Nat) (rest : Intermediary)
    (h : x.is_in_need_of_a_trailing_blankline = true) :
    apply_fixups (x :: .Indent d :: .HardNewLine :: .End :: rest)
      = x :: .Indent d :: .HardNewLine :: .HardNewLine :: .End :: rest := by
  unfold apply_fixups
  rw [r1_skips_s2, ruleR2_fires x d rest h, r3_skips_out2, r4_skips_out2, r5_skips_out2]

lemma fixups_out2 (x : ConcreteLineToken) (d : Nat) (rest : Intermediary) :
    apply_fixups (x :: .Indent d :: .HardNewLine :: .HardNewLine :: .End :: rest)
      = x :: .Indent d :: .HardNewLine :: .HardNewLine :: .End :: rest := by
  unfold apply_fixups
  rw [r1_skips_out2, r2_skips_out2, r3_skips_out2, r4_skips_out2, r5_skips_out2]

lemma fixups_s3 (x : ConcreteLineToken) (d : Nat) (rest : Intermediary)
    (hx : x ≠ ConcreteLineToken.DefKeyword)
    (h1 : x.is_in_need_of_a_trailing_blankline = true)
    (h2 : x.is_method_visibility_modifier = false) :
    apply_fixups (x :: .Indent d :: .HardNewLine :: .AfterCallChain :: .End :: rest)
      = x :: .Indent d :: .HardNewLine :: .HardNewLine :: .AfterCallChain :: .End :: rest := by
  unfold apply_fixups
  rw [r1_skips_s3, r2_skips_s3, ruleR3_fires x d rest hx h1 h2, r4_skips_out3, r5_skips_out3]

lemma fixups_s3_skip (x : ConcreteLineToken) (d : Nat) (rest : Intermediary)
    (hfail : x = ConcreteLineToken.DefKeyword ∨
      x.is_in_need_of_a_trailing_blankline = false ∨
      x.is_method_visibility_modifier = true) :
    apply_fixups (x :: .Indent d :: .HardNewLine :: .AfterCallChain :: .End :: rest)
      = x :: .Indent d :: .HardNewLine :: .AfterCallChain :: .End :: rest := by
  unfold apply_fixups
  rw [r1_skips_s3, r2_skips_s3, ruleR3_skips x d rest hfail, r4_skips_s3, r5_skips_s3]

lemma fixups_out3 (x : ConcreteLineToken) (d : Nat) (rest : Intermediary) :
    apply_fixups (x :: .Indent d :: .HardNewLine :: .HardNewLine :: .AfterCallChain
        :: .End :: rest)
      = x :: .Indent d :: .HardNewLine :: .HardNewLine :: .AfterCallChain :: .End :: rest := by
  unfold apply_fixups
  rw [r1_skips_out3, r2_skips_out3, r3_skips_out3, r4_skips_out3, r5_skips_out3]

lemma fixups_s4 (s : String) (d2 d1 hd : Nat) (sym : String) (rest : Intermediary) :
    apply_fixups (.Delim s :: .Indent d2 :: .Indent d1 :: .HardNewLine
        :: .HeredocClose hd sym :: rest)
      = .Delim s :: .Indent d1 :: .HardNewLine :: .HeredocClose hd sym :: rest := rfl

lemma fixups_out4 (s : String) (d1 hd : Nat) (sym : String) (rest : Intermediary) :
    apply_fixups (.Delim s :: .Indent d1 :: .HardNewLine :: .HeredocClose hd sym :: rest)
      = .Delim s :: .Indent d1 :: .HardNewLine :: .HeredocClose hd sym :: rest := rfl

lemma fixups_s5 (s : String) (d hd : Nat) (sym : String) (rest : Intermediary) :
    apply_fixups (.HardNewLine :: .HardNewLine :: .Comma :: .Delim s :: .Indent d
        :: .HardNewLine :: .HeredocClose hd sym :: rest)
      = .HardNewLine :: .Comma :: .Delim s :: .Indent d :: .HardNewLine
        :: .HeredocClose hd sym :: rest := rfl

lemma fixups_out5 (s : String) (d hd : Nat) (sym : String) (rest : Intermediary) :
    apply_fixups (.HardNewLine :: .Comma :: .Delim s :: .Indent d :: .HardNewLine
        :: .HeredocClose hd sym :: rest)
      = .HardNewLine :: .Comma :: .Delim s :: .Indent d :: .HardNewLine
        :: .HeredocClose hd sym :: rest := rfl

lemma fixups_of_noop (acc : Intermediary)
    (h1 : ruleR1 acc = acc) (h2 : ruleR2 acc = acc) (h3 : ruleR3 acc = acc)
    (h4 : ruleR4 acc = acc) (h5 : ruleR5 acc = acc) :
    apply_fixups acc = acc := by
  unfold apply_fixups
  rw [h1, h2, h3, h4, h5]


/-!
Helper lemmas for the sink-writing path.
-/

lemma write_tokens_io_ok {σ ε : Type} (wr : σ → String → Except ε σ)
    (hok : ∀ st x, ∃ s2, wr st x = Except.ok s2) :
    ∀ (ts : List ConcreteLineToken) (s : σ),
      ∃ s2, write_tokens_io wr s ts = Except.ok s2 := by
  intro ts
  induction ts with
  | nil => exact fun s => ⟨s, rfl⟩
  | cons t rest ih =>
      intro s
      obtain ⟨s2, h2⟩ := hok s t.into_ruby
      obtain ⟨s3, h3⟩ := ih s2
      exact ⟨s3, by simp [write_tokens_io, h2, h3]⟩

lemma write_tokens_io_error {σ ε : Type} (wr : σ → String → Except ε σ) :
    ∀ (ts : List ConcreteLineToken) (s : σ) (e : ε),
      write_tokens_io wr s ts = Except.error e → ∃ st x, wr st x = Except.error e := by
  intro ts
  induction ts with
  | nil =>
      intro s e h
      simp [write_tokens_io] at h
  | cons t rest ih =>
      intro s e h
      cases hw : wr s t.into_ruby with
      | ok s2 =>
          simp only [write_tokens_io, hw] at h
          exact ih s2 e h
      | error e2 =>
          simp only [write_tokens_io, hw, Except.error.injEq] at h
          exact ⟨s, t.into_ruby, by rw [hw, h]⟩

lemma write_tokens_io_collect :
    ∀ (ts : List ConcreteLineToken) (s : String),
      write_tokens_io strCollect s ts
        = Except.ok (ts.foldl (fun r t => r ++ t.into_ruby) s) := by
  intro ts
  induction ts with
  | nil => intro s; simp [write_tokens_io]
  | cons t rest ih =>
      intro s
      simp [write_tokens_io, strCollect, ih]

/-- A sink that always fails with error code 7, used to exhibit the
failure mode of write_io. -/
def alwaysFailSink : Unit → String → Except Nat Unit :=
  fun _ _ => Except.error 7

/-!
The claim theorems.
-/

/-- C1: for every breakable entry, the writer expands the multi-line
alternative exactly when (the measured single-line width exceeds
MAX_LINE_LENGTH, which is 120, or the entry is forced multiline) and
the formatting context is not StringEmbexpr (the spec's
StringInterpolation); in every other case — including any entry in
StringEmbexpr context regardless of width or forced flag — it expands
the single-line alternative and then invokes clear_breakable_garbage. -/
theorem breakable_expansion_choice (acc : Intermediary)
    (sl ml : List ConcreteLineTokenAndTargets) (len : Nat) (fm : Bool)
    (ctx : FormattingContext) :
    MAX_LINE_LENGTH = 120
    ∧ ((len > 120 ∨ fm = true) ∧ ctx ≠ FormattingContext.StringEmbexpr →
        format_breakable_entry acc sl ml len fm ctx = render_as acc ml)
    ∧ (¬((len > 120 ∨ fm = true) ∧ ctx ≠ FormattingContext.StringEmbexpr) →
        format_breakable_entry acc sl ml len fm ctx
          = clear_breakable_garbage (render_as acc sl)) := by
  refine ⟨rfl, ?_, ?_⟩
  · intro h
    unfold format_breakable_entry
    rw [if_pos (by simpa [MAX_LINE_LENGTH] using h)]
  · intro h
    unfold format_breakable_entry
    rw [if_neg (by simpa [MAX_LINE_LENGTH] using h)]

theorem breakable_expansion_choice_witness :
    format_breakable_entry [] [] [] 130 false FormattingContext.ArgsList
      = render_as [] []
    ∧ format_breakable_entry [] [] [] 130 false FormattingContext.StringEmbexpr
      = clear_breakable_garbage (render_as [] []) := by
  constructor
  · exact (breakable_expansion_choice [] [] [] 130 false FormattingContext.ArgsList).2.1
      (by decide)
  · exact (breakable_expansion_choice [] [] [] 130 false
      FormattingContext.StringEmbexpr).2.2 (by decide)

/-- C2: after any append, the five sequential peephole checks fire at
most one rule — whenever rule Ri rewrites the buffer, the whole pass
equals Ri alone — and the pass is idempotent, so re-evaluating all
rules on the result is a no-op (a fixed point in at most one step). -/
theorem peephole_single_rule_fixed_point (acc : Intermediary) :
    (ruleR1 acc ≠ acc → apply_fixups acc = ruleR1 acc)
    ∧ (ruleR2 acc ≠ acc → apply_fixups acc = ruleR2 acc)
    ∧ (ruleR3 acc ≠ acc → apply_fixups acc = ruleR3 acc)
    ∧ (ruleR4 acc ≠ acc → apply_fixups acc = ruleR4 acc)
    ∧ (ruleR5 acc ≠ acc → apply_fixups acc = ruleR5 acc)
    ∧ apply_fixups (apply_fixups acc) = apply_fixups acc := by
  refine ⟨?_, ?_, ?_, ?_, ?_, ?_⟩
  · intro h
    obtain ⟨d, hd, sym, rest, rfl⟩ := ruleR1_shape acc h
    rw [ruleR1_fires, fixups_s1]
  · intro h
    obtain ⟨x, d, rest, rfl, hp⟩ := ruleR2_shape acc h
    rw [ruleR2_fires x d rest hp, fixups_s2 x d rest hp]
  · intro h
    obtain ⟨x, d, rest, rfl, hx, ha, hb⟩ := ruleR3_shape acc h
    rw [ruleR3_fires x d rest hx ha hb, fixups_s3 x d rest hx ha hb]
  · intro h
    obtain ⟨s, d2, d1, hd, sym, rest, rfl⟩ := ruleR4_shape acc h
    rw [ruleR4_fires, fixups_s4]
  · intro h
    obtain ⟨s, d, hd, sym, rest, rfl⟩ := ruleR5_shape acc h
    rw [ruleR5_fires, fixups_s5]
  · by_cases h1 : ruleR1 acc = acc
    · by_cases h2 : ruleR2 acc = acc
      · by_cases h3 : ruleR3 acc = acc
        · by_cases h4 : ruleR4 acc = acc
          · by_cases h5 : ruleR5 acc = acc
            · rw [fixups_of_noop acc h1 h2 h3 h4 h5, fixups_of_noop acc h1 h2 h3 h4 h5]
            · obtain ⟨s, d, hd, sym, rest, rfl⟩ := ruleR5_shape acc h5
              rw [fixups_s5, fixups_out5]
          · obtain ⟨s, d2, d1, hd, sym, rest, rfl⟩ := ruleR4_shape acc h4
            rw [fixups_s4, fixups_out4]
        · obtain ⟨x, d, rest, rfl, hx, ha, hb⟩ := ruleR3_shape acc h3
          rw [fixups_s3 x d rest hx ha hb, fixups_out3]
      · obtain ⟨x, d, rest, rfl, hp⟩ := ruleR2_shape acc h2
        rw [fixups_s2 x d rest hp, fixups_out2]
    · obtain ⟨d, hd, sym, rest, rfl⟩ := ruleR1_shape acc h1
      rw [fixups_s1, fixups_out1]

theorem peephole_single_rule_fixed_point_witness :
    ruleR2 [ ConcreteLineToken.DefKeyword, ConcreteLineToken.Indent 0,
      ConcreteLineToken.HardNewLine, ConcreteLineToken.End ]
      ≠ [ ConcreteLineToken.DefKeyword, ConcreteLineToken.Indent 0,
        ConcreteLineToken.HardNewLine, ConcreteLineToken.End ]
    ∧ apply_fixups [ ConcreteLineToken.DefKeyword, ConcreteLineToken.Indent 0,
        ConcreteLineToken.HardNewLine, ConcreteLineToken.End ]
      = ruleR2 [ ConcreteLineToken.DefKeyword, ConcreteLineToken.Indent 0,
        ConcreteLineToken.HardNewLine, ConcreteLineToken.End ] := by
  refine ⟨by decide, ?_⟩
  exact (peephole_single_rule_fixed_point _).2.1 (by decide)

/-- C3 counterexample: the queue consisting of two HardNewLine tokens
renders to "\n\n" — a nonempty output that ends in two consecutive
newlines, because write_final_tokens only pops a duplicate trailing
newline when the buffer holds more than two tokens.  This refutes the
claim that every nonempty output ends in exactly one newline. -/
theorem trailing_newline_claim_false :
    write [ ConcreteLineTokenAndTargets.ConcreteLineToken ConcreteLineToken.HardNewLine,
      ConcreteLineTokenAndTargets.ConcreteLineToken ConcreteLineToken.HardNewLine ]
      = "\n\n" := by
  simp [write, render_as, apply_fixups, ruleR1, ruleR2, ruleR3, ruleR4, ruleR5, push,
    into_tokens, final_pop, write_final_tokens, ConcreteLineToken.into_ruby, String.join]

/-- C3 amended: at final serialization, if the rendered buffer holds
more than two tokens and its last two are both HardNewLine, exactly
one is popped; in particular the queue
[DirectPart "x", HardNewLine, HardNewLine] yields "x\n".  (Buffers of
at most two tokens, or with three or more trailing newlines, may still
end in consecutive newlines.) -/
theorem trailing_newline_pop (ts : List ConcreteLineToken)
    (hlen : 2 < ts.length)
    (h2 : ts[ts.length - 2]? = some ConcreteLineToken.HardNewLine)
    (h1 : ts[ts.length - 1]? = some ConcreteLineToken.HardNewLine) :
    write_final_tokens ts = String.join (ts.dropLast.map ConcreteLineToken.into_ruby)
    ∧ write [ ConcreteLineTokenAndTargets.ConcreteLineToken (ConcreteLineToken.DirectPart "x"),
        ConcreteLineTokenAndTargets.ConcreteLineToken ConcreteLineToken.HardNewLine,
        ConcreteLineTokenAndTargets.ConcreteLineToken ConcreteLineToken.HardNewLine ]
      = "x\n" := by
  constructor
  · unfold write_final_tokens final_pop
    rw [if_pos hlen, if_pos ⟨h2, h1⟩]
  · simp [write, render_as, apply_fixups, ruleR1, ruleR2, ruleR3, ruleR4, ruleR5, push,
      into_tokens, final_pop, write_final_tokens, ConcreteLineToken.into_ruby, String.join]

theorem trailing_newline_pop_witness :
    write_final_tokens [ ConcreteLineToken.DirectPart "x", ConcreteLineToken.HardNewLine,
      ConcreteLineToken.HardNewLine ]
      = String.join ((([ ConcreteLineToken.DirectPart "x", ConcreteLineToken.HardNewLine,
          ConcreteLineToken.HardNewLine ] : List ConcreteLineToken).dropLast).map
          ConcreteLineToken.into_ruby) :=
  (trailing_newline_pop
    [ ConcreteLineToken.DirectPart "x", ConcreteLineToken.HardNewLine,
      ConcreteLineToken.HardNewLine ]
    (by decide) (by decide) (by decide)).1

/-- C4: rule R3 — on buffer suffix [End, AfterCallChain, HardNewLine,
Indent, x] (reversed here), when x is not DefKeyword, needs a trailing
blankline, and is not a visibility modifier, the fixup pass inserts a
blank line tagged ComesAfterEnd; when any of the three conditions on x
fails, the pass leaves the buffer unchanged. -/
theorem blankline_after_end_call_chain (x : ConcreteLineToken) (d : Nat)
    (rest : Intermediary) :
    (x ≠ ConcreteLineToken.DefKeyword →
      x.is_in_need_of_a_trailing_blankline = true →
      x.is_method_visibility_modifier = false →
      apply_fixups (x :: .Indent d :: .HardNewLine :: .AfterCallChain :: .End :: rest)
        = insert_trailing_blankline
            (x :: .Indent d :: .HardNewLine :: .AfterCallChain :: .End :: rest)
            BlanklineReason.ComesAfterEnd
      ∧ insert_trailing_blankline
            (x :: .Indent d :: .HardNewLine :: .AfterCallChain :: .End :: rest)
            BlanklineReason.ComesAfterEnd
          = x :: .Indent d :: .HardNewLine :: .HardNewLine :: .AfterCallChain
            :: .End :: rest)
    ∧ ((x = ConcreteLineToken.DefKeyword ∨
        x.is_in_need_of_a_trailing_blankline = false ∨
        x.is_method_visibility_modifier = true) →
      apply_fixups (x :: .Indent d :: .HardNewLine :: .AfterCallChain :: .End :: rest)
        = x :: .Indent d :: .HardNewLine :: .AfterCallChain :: .End :: rest) := by
  constructor
  · intro hx ha hb
    refine ⟨?_, rfl⟩
    rw [fixups_s3 x d rest hx ha hb]
    rfl
  · exact fixups_s3_skip x d rest

theorem blankline_after_end_call_chain_witness :
    apply_fixups [ ConcreteLineToken.ClassKeyword, ConcreteLineToken.Indent 0,
      ConcreteLineToken.HardNewLine, ConcreteLineToken.AfterCallChain,
      ConcreteLineToken.End ]
      = [ ConcreteLineToken.ClassKeyword, ConcreteLineToken.Indent 0,
        ConcreteLineToken.HardNewLine, ConcreteLineToken.HardNewLine,
        ConcreteLineToken.AfterCallChain, ConcreteLineToken.End ]
    ∧ apply_fixups [ ConcreteLineToken.DefKeyword, ConcreteLineToken.Indent 0,
        ConcreteLineToken.HardNewLine, ConcreteLineToken.AfterCallChain,
        ConcreteLineToken.End ]
      = [ ConcreteLineToken.DefKeyword, ConcreteLineToken.Indent 0,
        ConcreteLineToken.HardNewLine, ConcreteLineToken.AfterCallChain,
        ConcreteLineToken.End ] := by
  constructor
  · have h := (blankline_after_end_call_chain ConcreteLineToken.ClassKeyword 0 []).1
      (by decide) (by decide) (by decide)
    rw [h.1, h.2]
  · exact (blankline_after_end_call_chain ConcreteLineToken.DefKeyword 0 []).2
      (Or.inl rfl)

/-- C5: rule R2 — on buffer suffix [End, HardNewLine, Indent, x]
(reversed here) with x needing a trailing blankline, the fixup pass
inserts a blank line tagged ComesAfterEnd before x; in particular the
queue ending [End, HardNewLine, Indent 0, DefKeyword] renders with a
blank line between end and def. -/
theorem blankline_after_end (x : ConcreteLineToken) (d : Nat) (rest : Intermediary)
    (h : x.is_in_need_of_a_trailing_blankline = true) :
    apply_fixups (x :: .Indent d :: .HardNewLine :: .End :: rest)
      = insert_trailing_blankline (x :: .Indent d :: .HardNewLine :: .End :: rest)
          BlanklineReason.ComesAfterEnd
    ∧ insert_trailing_blankline (x :: .Indent d :: .HardNewLine :: .End :: rest)
        BlanklineReason.ComesAfterEnd
      = x :: .Indent d :: .HardNewLine :: .HardNewLine :: .End :: rest
    ∧ write [ ConcreteLineTokenAndTargets.ConcreteLineToken ConcreteLineToken.End,
        ConcreteLineTokenAndTargets.ConcreteLineToken ConcreteLineToken.HardNewLine,
        ConcreteLineTokenAndTargets.ConcreteLineToken (ConcreteLineToken.Indent 0),
        ConcreteLineTokenAndTargets.ConcreteLineToken ConcreteLineToken.DefKeyword ]
      = "end\n\ndef" := by
  refine ⟨?_, rfl, ?_⟩
  · rw [fixups_s2 x d rest h]
    rfl
  · simp [write, render_as, apply_fixups, ruleR1, ruleR2, ruleR3, ruleR4, ruleR5, push,
      insert_trailing_blankline, into_tokens, final_pop, write_final_tokens,
      ConcreteLineToken.into_ruby, ConcreteLineToken.is_in_need_of_a_trailing_blankline,
      ConcreteLineToken.is_method_visibility_modifier, String.join]

theorem blankline_after_end_witness :
    apply_fixups [ ConcreteLineToken.DefKeyword, ConcreteLineToken.Indent 0,
      ConcreteLineToken.HardNewLine, ConcreteLineToken.End ]
      = [ ConcreteLineToken.DefKeyword, ConcreteLineToken.Indent 0,
        ConcreteLineToken.HardNewLine, ConcreteLineToken.HardNewLine,
        ConcreteLineToken.End ] := by
  have h := blankline_after_end ConcreteLineToken.DefKeyword 0 [] (by decide)
  rw [h.1, h.2.1]

/-- C6: rule R4 — on buffer suffix [HeredocClose, HardNewLine, Indent,
Indent, Delim] (reversed here) the fixup pass collapses the two
consecutive Indent tokens to one via fix_heredoc_indent_mistake, and
the rule fires on no other suffix shape. -/
theorem heredoc_indent_fix (s : String) (d2 d1 hd : Nat) (sym : String)
    (rest : Intermediary) (acc : Intermediary) :
    apply_fixups (.Delim s :: .Indent d2 :: .Indent d1 :: .HardNewLine
        :: .HeredocClose hd sym :: rest)
      = fix_heredoc_indent_mistake (.Delim s :: .Indent d2 :: .Indent d1
          :: .HardNewLine :: .HeredocClose hd sym :: rest)
    ∧ fix_heredoc_indent_mistake (.Delim s :: .Indent d2 :: .Indent d1 :: .HardNewLine
        :: .HeredocClose hd sym :: rest)
      = .Delim s :: .Indent d1 :: .HardNewLine :: .HeredocClose hd sym :: rest
    ∧ (ruleR4 acc ≠ acc →
        ∃ s2 e2 e1 h2 sym2 rest2,
          acc = .Delim s2 :: .Indent e2 :: .Indent e1 :: .HardNewLine
            :: .HeredocClose h2 sym2 :: rest2) :=
  ⟨fixups_s4 s d2 d1 hd sym rest, rfl, ruleR4_shape acc⟩

theorem heredoc_indent_fix_witness :
    apply_fixups [ ConcreteLineToken.Delim "]", ConcreteLineToken.Indent 1,
      ConcreteLineToken.Indent 1, ConcreteLineToken.HardNewLine,
      ConcreteLineToken.HeredocClose 1 "EOD" ]
      = [ ConcreteLineToken.Delim "]", ConcreteLineToken.Indent 1,
        ConcreteLineToken.HardNewLine, ConcreteLineToken.HeredocClose 1 "EOD" ]
    ∧ ∃ s2 e2 e1 h2 sym2 rest2,
        ([ ConcreteLineToken.Delim "]", ConcreteLineToken.Indent 1,
          ConcreteLineToken.Indent 1, ConcreteLineToken.HardNewLine,
          ConcreteLineToken.HeredocClose 1 "EOD" ] : Intermediary)
          = ConcreteLineToken.Delim s2 :: ConcreteLineToken.Indent e2
            :: ConcreteLineToken.Indent e1 :: ConcreteLineToken.HardNewLine
            :: ConcreteLineToken.HeredocClose h2 sym2 :: rest2 := by
  have h := heredoc_indent_fix "]" 1 1 1 "EOD" []
    [ ConcreteLineToken.Delim "]", ConcreteLineToken.Indent 1,
      ConcreteLineToken.Indent 1, ConcreteLineToken.HardNewLine,
      ConcreteLineToken.HeredocClose 1 "EOD" ]
  exact ⟨by rw [h.1, h.2.1], h.2.2 (by decide)⟩

/-- C7: breakable expansion is recursive — the chosen alternative of a
breakable entry is processed by render_as itself, the same loop that
handles top-level items, so nested breakables undergo the same
decision, and the fixup pass runs after every item, whether the item
arrived at top level or inside an expanded alternative. -/
theorem render_recursion (acc : Intermediary)
    (sl ml : List ConcreteLineTokenAndTargets) (len : Nat) (fm : Bool)
    (ctx : FormattingContext) (rest : List ConcreteLineTokenAndTargets)
    (x : ConcreteLineToken) :
    render_as acc (ConcreteLineTokenAndTargets.BreakableEntry sl ml len fm ctx :: rest)
      = render_as (apply_fixups (format_breakable_entry acc sl ml len fm ctx)) rest
    ∧ render_as acc (ConcreteLineTokenAndTargets.ConcreteLineToken x :: rest)
      = render_as (apply_fixups (push acc x)) rest := by
  constructor
  · simp only [render_as, format_breakable_entry]
  · simp only [render_as]

/-- C8: write has exactly one failure mode — its result is the
serialization of the fully rendered buffer through the sink, so no
sink call happens before final serialization and the pure render loop
cannot fail; any error it returns is an error returned by the sink
(carrying the underlying cause), and with a sink that never fails,
write never fails. -/
theorem write_failure_modes {σ ε : Type} (wr : σ → String → Except ε σ) (s : σ)
    (queue : List ConcreteLineTokenAndTargets) :
    write_io wr s queue
      = write_tokens_io wr s (final_pop (into_tokens (render_as [] queue)))
    ∧ (∀ e, write_io wr s queue = Except.error e → ∃ st x, wr st x = Except.error e)
    ∧ ((∀ st x, ∃ s2, wr st x = Except.ok s2) →
        ∃ s2, write_io wr s queue = Except.ok s2) := by
  refine ⟨rfl, ?_, ?_⟩
  · intro e h
    exact write_tokens_io_error wr _ s e h
  · intro hok
    exact write_tokens_io_ok wr hok _ s

theorem write_failure_modes_witness :
    (∃ st x, alwaysFailSink st x = Except.error 7)
    ∧ (∃ s2, write_io strCollect ""
        [ ConcreteLineTokenAndTargets.ConcreteLineToken (ConcreteLineToken.DirectPart "x") ]
        = Except.ok s2) := by
  constructor
  · apply (write_failure_modes alwaysFailSink ()
      [ ConcreteLineTokenAndTargets.ConcreteLineToken (ConcreteLineToken.DirectPart "x") ]).2.1 7
    simp [write_io, write_final_tokens_io, write_tokens_io, render_as, apply_fixups,
      ruleR1, ruleR2, ruleR3, ruleR4, ruleR5, push, into_tokens, final_pop,
      alwaysFailSink, ConcreteLineToken.into_ruby]
  · exact (write_failure_modes strCollect ""
      [ ConcreteLineTokenAndTargets.ConcreteLineToken (ConcreteLineToken.DirectPart "x") ]).2.2
      (fun st x => ⟨st ++ x, rfl⟩)

/-- C9: write is deterministic — on equal input queues the byte
sequence passed to the sink is identical, and it equals the pure
serialization of the queue. -/
theorem write_deterministic (q1 q2 : List ConcreteLineTokenAndTargets) (h : q1 = q2) :
    write_io strCollect "" q1 = write_io strCollect "" q2
    ∧ write_io strCollect "" q1 = Except.ok (write q1)
    ∧ write q1 = write q2 := by
  subst h
  refine ⟨rfl, ?_, rfl⟩
  unfold write_io write_final_tokens_io write write_final_tokens
  rw [write_tokens_io_collect]
  simp [String.join, List.foldl_map]

theorem write_deterministic_witness :
    write_io strCollect ""
      [ ConcreteLineTokenAndTargets.ConcreteLineToken (ConcreteLineToken.DirectPart "x") ]
      = Except.ok (write
        [ ConcreteLineTokenAndTargets.ConcreteLineToken (ConcreteLineToken.DirectPart "x") ]) :=
  (write_deterministic
    [ ConcreteLineTokenAndTargets.ConcreteLineToken (ConcreteLineToken.DirectPart "x") ]
    [ ConcreteLineTokenAndTargets.ConcreteLineToken (ConcreteLineToken.DirectPart "x") ]
    rfl).2.1

/-- C10: final serialization removes at most one token, and only when
the buffer holds strictly more than two tokens; a buffer of at most
two tokens — even exactly [HardNewLine, HardNewLine] — is serialized
unchanged, and with three or more trailing HardNewLine tokens only the
last one is removed. -/
theorem final_pop_bounds (ts xs : List ConcreteLineToken) :
    (final_pop ts = ts ∨ (2 < ts.length ∧ final_pop ts = ts.dropLast))
    ∧ (ts.length ≤ 2 → final_pop ts = ts)
    ∧ final_pop [ ConcreteLineToken.HardNewLine, ConcreteLineToken.HardNewLine ]
      = [ ConcreteLineToken.HardNewLine, ConcreteLineToken.HardNewLine ]
    ∧ final_pop (xs ++ [ ConcreteLineToken.HardNewLine, ConcreteLineToken.HardNewLine,
        ConcreteLineToken.HardNewLine ])
      = xs ++ [ ConcreteLineToken.HardNewLine, ConcreteLineToken.HardNewLine ] := by
  refine ⟨?_, ?_, rfl, ?_⟩
  · unfold final_pop
    split_ifs with hl hc
    · exact Or.inr ⟨hl, rfl⟩
    · exact Or.inl rfl
    · exact Or.inl rfl
  · intro hle
    unfold final_pop
    rw [if_neg (by omega)]
  · have hlen : (xs ++ [ ConcreteLineToken.HardNewLine, ConcreteLineToken.HardNewLine,
        ConcreteLineToken.HardNewLine ]).length = xs.length + 3 := by
      simp only [List.length_append, List.length_cons, List.length_nil]
    have hget2 : (xs ++ [ ConcreteLineToken.HardNewLine, ConcreteLineToken.HardNewLine,
        ConcreteLineToken.HardNewLine ])[(xs ++ [ ConcreteLineToken.HardNewLine,
          ConcreteLineToken.HardNewLine, ConcreteLineToken.HardNewLine ]).length - 2]?
        = some ConcreteLineToken.HardNewLine := by
      rw [hlen, show xs.length + 3 - 2 = xs.length + 1 by omega,
        List.getElem?_append_right (by omega)]
      simp
    have hget1 : (xs ++ [ ConcreteLineToken.HardNewLine, ConcreteLineToken.HardNewLine,
        ConcreteLineToken.HardNewLine ])[(xs ++ [ ConcreteLineToken.HardNewLine,
          ConcreteLineToken.HardNewLine, ConcreteLineToken.HardNewLine ]).length - 1]?
        = some ConcreteLineToken.HardNewLine := by
      rw [hlen, show xs.length + 3 - 1 = xs.length + 2 by omega,
        List.getElem?_append_right (by omega)]
      simp
    unfold final_pop
    rw [if_pos (by omega), if_pos ⟨hget2, hget1⟩]
    simp [List.dropLast_append_cons]

theorem final_pop_bounds_witness :
    final_pop [ ConcreteLineToken.HardNewLine, ConcreteLineToken.HardNewLine ]
      = [ ConcreteLineToken.HardNewLine, ConcreteLineToken.HardNewLine ] :=
  (final_pop_bounds [ ConcreteLineToken.HardNewLine, ConcreteLineToken.HardNewLine ] []).2.1
    (by decide)

end Rubyfmt
